import Mathlib

/-!
# Verification of stock-analyzer core components

Shallow embedding, in Lean 4, of the core decision-and-verification logic of
the stock-analyzer repository:

* `prepare_target.create_target_variable` (label construction),
* `signal_evaluator.evaluate_signals` (rule-based signal evaluation),
* `backtest.run_backtest` (the trade-simulation loop),
* `trade_tracker.TradeTracker.log_signal` / `_evaluate_past_trades`
  (the persistent trade ledger and its reconciliation).

Machine floats of the source are embedded as exact rationals (`ℚ`); pandas
DataFrames are embedded as explicit lists of typed rows.  Python `int(x)`
(truncation toward zero) is `ratTrunc`, Python `x // y` (floor division)
is `Int.floor (x / y)`.
-/

/-- Truncation of a rational toward zero: the behaviour of Python `int(x)`
on a float value `x`. -/
def ratTrunc (q : ℚ) : ℤ := if q < 0 then -⌊-q⌋ else ⌊q⌋

/-- Rounding of a rational to two decimal places, the embedding of Python
`round(x, 2)`.  (Python rounds exact half-cent ties to even; `round` here
rounds them up.  No claim below exercises an exact tie.) -/
def roundTo2 (q : ℚ) : ℚ := (round (q * 100) : ℤ) / 100

/-! ## prepare_target.py — `create_target_variable`

The source operates on a DataFrame with a `Close` column; it writes a
`Target` column and returns `df.dropna(subset=['Target'])`.  We embed the
frame as its list of closing prices plus an optional `Target` column whose
entries are optional (`none` embeds a pandas `NaN` cell; an absent column is
`tcol = none`).  The source mutates its argument in place, so the embedding
returns both the caller-visible final state of `df` and the returned frame.
The source raises no exception on any path, so every branch produces
`Except.ok`; the `Except` shell makes the (absent) failure behaviour of the
source expressible. -/

/-- A price frame for `create_target_variable`: the `Close` column, plus the
`Target` column when present (entry `none` = `NaN`). -/
structure PFrame where
  closes : List ℚ
  tcol : Option (List (Option ℤ))
deriving DecidableEq, Repr

/-- The `Target` value the source computes for row `i`:
`df['Target'] = 0`, then `df.loc[future > close*(1+p/100)] = 1`, then
`df.loc[future < close*(1-p/100)] = -1` (the later `.loc` write wins when
both masks hold).  `future_price = df['Close'].shift(-future_days)` is `NaN`
past the end of the series, and a comparison against `NaN` is `False`, so
such rows keep the default `0`. -/
def targetAt (closes : List ℚ) (future_days : ℕ) (target_percent : ℚ) (i : ℕ) : ℤ :=
  let c := closes.getD i 0
  match closes.get? (i + future_days) with
  | none => 0
  | some f =>
    let afterBuy : ℤ := if f > c * (1 + target_percent / 100) then 1 else 0
    if f < c * (1 - target_percent / 100) then -1 else afterBuy

/-- The whole `Target` column written into `df`; every cell is `some`
because the default write `df['Target'] = 0` precedes the two masked
writes. -/
def targetColumn (closes : List ℚ) (future_days : ℕ) (target_percent : ℚ) :
    List (Option ℤ) :=
  (List.range closes.length).map (fun i => some (targetAt closes future_days target_percent i))

/-- `df.dropna(subset=['Target'])`: keep exactly the rows whose `Target`
cell is not `NaN`. -/
def dropnaTarget (closes : List ℚ) (tgts : List (Option ℤ)) :
    List ℚ × List (Option ℤ) :=
  let kept := (closes.zip tgts).filter (fun p => p.2.isSome)
  (kept.map Prod.fst, kept.map Prod.snd)

/-- Embedding of `prepare_target.create_target_variable`.  Returns the final
state of the caller's frame (first component: the source assigns
`df['Target']` in place) and the frame the function returns (second
component).  On an empty frame the source logs a warning and returns `df`
unchanged; no branch of the source raises, so the result is always
`Except.ok`. -/
def create_target_variable (df : PFrame) (future_days : ℕ) (target_percent : ℚ) :
    Except String (PFrame × PFrame) :=
  if df.closes = [] then
    .ok (df, df)
  else
    let tgts := targetColumn df.closes future_days target_percent
    let mutated : PFrame := ⟨df.closes, some tgts⟩
    let kept := dropnaTarget df.closes tgts
    .ok (mutated, ⟨kept.1, some kept.2⟩)

/-! ### Facts about `create_target_variable` -/

/-- Every cell of the written `Target` column is a concrete value (the
default `df['Target'] = 0` precedes the masked writes), so
`dropna(subset=['Target'])` keeps every row. -/
lemma dropnaTarget_targetColumn (closes : List ℚ) (fd : ℕ) (tp : ℚ) :
    dropnaTarget closes (targetColumn closes fd tp) = (closes, targetColumn closes fd tp) := by
  unfold dropnaTarget
  have hlen : (targetColumn closes fd tp).length = closes.length := by
    simp [targetColumn]
  have hfil : (closes.zip (targetColumn closes fd tp)).filter (fun p => p.2.isSome)
      = closes.zip (targetColumn closes fd tp) := by
    apply List.filter_eq_self.mpr
    intro p hp
    have hmem : p.2 ∈ targetColumn closes fd tp := (List.of_mem_zip hp).2
    simp only [targetColumn, List.mem_map] at hmem
    obtain ⟨i, _, hi⟩ := hmem
    simp [← hi]
  simp only [hfil]
  rw [List.map_fst_zip _ _ (by omega), List.map_snd_zip _ _ (by omega)]

/-- A row whose future window falls outside the series keeps the default
label `0`: the shifted future price is `NaN` there and both masked writes
compare false against `NaN`. -/
lemma targetAt_of_out_of_range (closes : List ℚ) (fd : ℕ) (tp : ℚ) (i : ℕ)
    (h : closes.length ≤ i + fd) : targetAt closes fd tp i = 0 := by
  unfold targetAt
  rw [List.get?_eq_none.mpr h]

/-- C1: label construction never drops any row: the frame returned by
`create_target_variable` has exactly the rows of the input (first
conjunct), and a row whose future window falls outside the series is kept
with the default HOLD/`0` label (second conjunct).  The claim asserts the
trailing `future_days` rows are dropped and never defaulted to HOLD; the
code defaults `Target` to `0` before the masked writes, so
`dropna(subset=['Target'])` finds no `NaN` and removes nothing, even though
the source's own comment and log message announce that the trailing rows
were excluded. -/
theorem create_target_variable_keeps_all_rows :
    (∀ (df : PFrame) (fd : ℕ) (tp : ℚ),
      (create_target_variable df fd tp).map (fun p => p.2.closes) = Except.ok df.closes)
    ∧ (∀ (closes : List ℚ) (fd : ℕ) (tp : ℚ) (i : ℕ),
        closes.length ≤ i + fd → targetAt closes fd tp i = 0) := by
  constructor
  · intro df fd tp
    unfold create_target_variable
    by_cases h : df.closes = []
    · simp [h, Except.map]
    · simp only [h, if_false, dropnaTarget_targetColumn, Except.map]
  · exact targetAt_of_out_of_range

/-- Witness for `create_target_variable_keeps_all_rows`: on a three-row
series with horizon 1 the last row is out of range and keeps label `0`. -/
theorem create_target_variable_keeps_all_rows_witness :
    targetAt [100, 100, 100] 1 2 2 = 0 :=
  create_target_variable_keeps_all_rows.2 [100, 100, 100] 1 2 2 (by decide)

/-- C6 counterexample: at the boundary `exit = entry * (1 + threshold/100)`
the code labels the row `0`, not BUY(`1`): the source compares with strict
`>` where the claim states `≥`.  With entry `100`, exit `150`, threshold
`50`%, the claimed equivalence `label = 1 ↔ exit ≥ entry * (1 + 50/100)`
fails. -/
theorem targetAt_boundary_counterexample :
    ¬ (targetAt [100, 150] 1 50 0 = 1 ↔ (150 : ℚ) ≥ 100 * (1 + 50 / 100)) := by
  norm_num [targetAt]

/-- C6 amended: for a row whose future bar exists, the 3-class label is
BUY(`1`) iff the future close strictly exceeds `close * (1 + p/100)`,
SELL(`-1`) iff it is strictly below `close * (1 - p/100)`, and `0`
otherwise (boundary values included): the source uses strict comparisons
on both sides. -/
theorem targetAt_strict_thresholds (closes : List ℚ) (fd : ℕ) (tp : ℚ) (i : ℕ)
    (c f : ℚ) (htp : 0 ≤ tp) (hc : closes.get? i = some c) (hcnn : 0 ≤ c)
    (hf : closes.get? (i + fd) = some f) :
    (targetAt closes fd tp i = 1 ↔ f > c * (1 + tp / 100))
    ∧ (targetAt closes fd tp i = -1 ↔ f < c * (1 - tp / 100))
    ∧ (targetAt closes fd tp i = 0 ↔ f ≤ c * (1 + tp / 100) ∧ c * (1 - tp / 100) ≤ f) := by
  have hspread : c * (1 - tp / 100) ≤ c * (1 + tp / 100) := by
    have : 0 ≤ c * (tp / 100) := mul_nonneg hcnn (by linarith)
    nlinarith
  have hgetD : closes.getD i 0 = c := by
    rw [List.getD_eq_getD_get?, hc]; rfl
  unfold targetAt
  rw [hf, hgetD]
  dsimp only
  split_ifs with h1 h2 <;> refine ⟨?_, ?_, ?_⟩ <;> constructor <;>
      intro hx <;> first
    | assumption
    | rfl
    | (exact absurd hx (by decide))
    | (constructor <;> linarith)
    | linarith

/-- Witness for `targetAt_strict_thresholds`: with closes `[100, 103]`,
horizon 1 and threshold `2`%, row 0 is labelled BUY because
`103 > 100 * 1.02`. -/
theorem targetAt_strict_thresholds_witness : targetAt [100, 103] 1 2 0 = 1 :=
  ((targetAt_strict_thresholds [100, 103] 1 2 0 100 103 (by norm_num) rfl
    (by norm_num) rfl).1).mpr (by norm_num)

/-- C8 counterexample: on an empty price series `create_target_variable`
does not fail at all — it logs a warning and returns the frame unchanged;
no `InsufficientDataError` (nor any other error) is raised, and no such
exception class exists anywhere in the repository. -/
theorem create_target_variable_empty_no_error :
    ¬ ∃ e, create_target_variable ⟨[], none⟩ 1 2 = Except.error e := by
  rintro ⟨e, he⟩
  rw [show create_target_variable ⟨[], none⟩ 1 2
      = Except.ok (⟨[], none⟩, ⟨[], none⟩) from rfl] at he
  exact Except.noConfusion he

/-- C8 amended: on an empty price series `create_target_variable` returns
the input frame unchanged (both as the caller-visible state and as the
returned value) and raises no error. -/
theorem create_target_variable_empty (df : PFrame) (fd : ℕ) (tp : ℚ)
    (h : df.closes = []) : create_target_variable df fd tp = .ok (df, df) := by
  simp [create_target_variable, h]

/-- Witness for `create_target_variable_empty` at the empty frame. -/
theorem create_target_variable_empty_witness :
    create_target_variable ⟨[], none⟩ 1 2 = .ok (⟨[], none⟩, ⟨[], none⟩) :=
  create_target_variable_empty ⟨[], none⟩ 1 2 rfl

/-- C9 counterexample: the call is not a pure transform — on a one-row
frame without a `Target` column, the caller's frame has gained a `Target`
column after the call (`df['Target'] = 0` and the `.loc` writes mutate the
argument in place), so the caller-visible state differs from the input. -/
theorem create_target_variable_mutates_caller :
    ¬ ((create_target_variable ⟨[100], none⟩ 1 2).map Prod.fst
        = Except.ok ⟨[100], none⟩) := by
  intro h
  rw [show (create_target_variable ⟨[100], none⟩ 1 2).map Prod.fst
      = Except.ok (⟨[100], some [some 0]⟩ : PFrame) from rfl] at h
  simp at h

/-- C9 amended: on a non-empty input, `create_target_variable` writes the
`Target` column into the caller's frame in place; the caller's rows are
otherwise untouched (no row is removed from the caller's frame in place —
the `dropna` result is a fresh frame). -/
theorem create_target_variable_writes_target_in_place (df : PFrame) (fd : ℕ)
    (tp : ℚ) (h : df.closes ≠ []) :
    (create_target_variable df fd tp).map Prod.fst
      = Except.ok ⟨df.closes, some (targetColumn df.closes fd tp)⟩ := by
  simp [create_target_variable, h, Except.map]

/-- Witness for `create_target_variable_writes_target_in_place` on a
one-row frame. -/
theorem create_target_variable_writes_target_in_place_witness :
    (create_target_variable ⟨[100], none⟩ 1 2).map Prod.fst
      = Except.ok ⟨[100], some (targetColumn [100] 1 2)⟩ :=
  create_target_variable_writes_target_in_place ⟨[100], none⟩ 1 2 (by simp)

/-! ## backtest.py — the trade-simulation loop of `run_backtest`

Data fetching, indicator computation and the LightGBM classifier are
external collaborators; the embedded part is the simulation loop (source
steps 8–9).  A test row is the triple `(prob, open, close)`: the BUY-class
probability predicted for the row, and the row's open and close prices.
The loop runs over `range(len(test_df) - 1)`: at index `i` it reads
`probs[i]` and trades at row `i+1`'s open/close, so the recursion consumes
the list two rows at a time and stops on the final row.  `commission` is
`0` in the source. -/

/-- One entry of `trade_log` (the budget-relevant fields; dates are
bookkeeping only).  `profit` is the exact value used to update the budget;
the CSV row displays `int(profit)`. -/
structure BTrade where
  prob : ℚ
  price_in : ℚ
  price_out : ℚ
  qty : ℤ
  profit : ℚ
deriving DecidableEq, Repr

/-- One iteration of the simulation loop: if `buy_prob >= AI_THRESHOLD` and
`current_budget >= next_day_open`, buy `int(current_budget //
next_day_open)` shares at the next open (provided that quantity is
positive) and immediately sell them at the next close, updating the budget
by `-= buy_cost` then `+= sell_revenue`.  Returns the new budget and the
trade logged, if any. -/
def backtestStep (threshold budget prob nextOpen nextClose : ℚ) :
    ℚ × Option BTrade :=
  if threshold ≤ prob ∧ nextOpen ≤ budget then
    let qty : ℤ := ⌊budget / nextOpen⌋
    if 0 < qty then
      let buyCost := (qty : ℚ) * nextOpen
      let sellRevenue := (qty : ℚ) * nextClose
      let profit := sellRevenue - buyCost
      (budget - buyCost + sellRevenue, some ⟨prob, nextOpen, nextClose, qty, profit⟩)
    else (budget, none)
  else (budget, none)

/-- The simulation loop over the test rows `(prob, open, close)`: final
budget and the trade log. -/
def runSim (threshold : ℚ) : ℚ → List (ℚ × ℚ × ℚ) → ℚ × List BTrade
  | b, [] => (b, [])
  | b, [_] => (b, [])
  | b, r0 :: r1 :: rest =>
    let s := backtestStep threshold b r0.1 r1.2.1 r1.2.2
    let t := runSim threshold s.1 (r1 :: rest)
    (t.1, s.2.toList ++ t.2)

/-- The same loop, with each logged trade annotated by the budget held at
the moment the trade executes (used to state the position-cost invariant;
`runSimA_agrees` shows it is the same run). -/
def runSimA (threshold : ℚ) : ℚ → List (ℚ × ℚ × ℚ) → ℚ × List (ℚ × BTrade)
  | b, [] => (b, [])
  | b, [_] => (b, [])
  | b, r0 :: r1 :: rest =>
    let s := backtestStep threshold b r0.1 r1.2.1 r1.2.2
    let t := runSimA threshold s.1 (r1 :: rest)
    (t.1, (s.2.map (fun tr => (b, tr))).toList ++ t.2)

/-- Position sizing `floor(budget / open)` never costs more than the
budget, whenever the entry guard `open ≤ budget` held and the quantity is
positive. -/
lemma floor_qty_cost_le (b o : ℚ) (hob : o ≤ b) (hq : 0 < ⌊b / o⌋) :
    (⌊b / o⌋ : ℚ) * o ≤ b := by
  rcases lt_trichotomy o 0 with h | h | h
  · have h1 : (1 : ℚ) ≤ b / o := by
      have h1' : (1 : ℤ) ≤ ⌊b / o⌋ := hq
      calc (1 : ℚ) = ((1 : ℤ) : ℚ) := by norm_num
        _ ≤ (⌊b / o⌋ : ℚ) := by exact_mod_cast h1'
        _ ≤ b / o := Int.floor_le _
    have hb : b ≤ o := by
      have h2 := (le_div_iff_of_neg h).mp h1
      linarith
    have hbo : b = o := le_antisymm hb hob
    subst hbo
    rw [div_self (ne_of_lt h)]
    simp
  · rw [h, div_zero] at hq
    simp at hq
  · have hfl : (⌊b / o⌋ : ℚ) ≤ b / o := Int.floor_le _
    have h2 := mul_le_mul_of_nonneg_right hfl (le_of_lt h)
    rwa [div_mul_cancel₀ b (ne_of_gt h)] at h2

/-- Budget change of one loop iteration equals the profit of the trade it
logs (or zero when no trade executes). -/
lemma backtestStep_budget (th b p o c : ℚ) :
    (backtestStep th b p o c).1
      = b + (((backtestStep th b p o c).2.map BTrade.profit).getD 0) := by
  unfold backtestStep
  dsimp only
  split_ifs <;> simp <;> ring

/-- A trade emitted by one loop iteration satisfies the entry conditions
and the position-cost bound with respect to the budget `b` entering the
iteration. -/
lemma backtestStep_trade (th b p o c : ℚ) (tr : BTrade)
    (h : (backtestStep th b p o c).2 = some tr) :
    th ≤ tr.prob ∧ tr.price_in ≤ b ∧ tr.qty = ⌊b / tr.price_in⌋
      ∧ 0 < tr.qty ∧ (tr.qty : ℚ) * tr.price_in ≤ b := by
  unfold backtestStep at h
  dsimp only at h
  split_ifs at h with h1 h2
  injection h with h'
  subst h'
  exact ⟨h1.1, h1.2, rfl, h2, floor_qty_cost_le b o h1.2 h2⟩

/-- Budget conservation of the whole loop: the final budget is the budget
entering the loop plus the sum of the logged trades' profits. -/
lemma runSim_budget (th : ℚ) (rows : List (ℚ × ℚ × ℚ)) :
    ∀ b, (runSim th b rows).1
      = b + (((runSim th b rows).2.map BTrade.profit).sum) := by
  induction rows with
  | nil => intro b; simp [runSim]
  | cons r0 tail ih =>
    intro b
    cases tail with
    | nil => simp [runSim]
    | cons r1 rest =>
      have hb := backtestStep_budget th b r0.1 r1.2.1 r1.2.2
      rcases hs : backtestStep th b r0.1 r1.2.1 r1.2.2 with ⟨b', ot⟩
      rw [hs] at hb
      dsimp only at hb
      rw [runSim]
      dsimp only
      rw [hs]
      dsimp only
      rw [ih b']
      rcases ot with _ | tr
      · simp at hb
        simp [hb]
      · simp at hb
        simp [hb]
        ring

/-- The annotated loop is the same run: same final budget, and dropping the
budget annotations recovers the trade log. -/
lemma runSimA_agrees (th : ℚ) (rows : List (ℚ × ℚ × ℚ)) :
    ∀ b, (runSimA th b rows).1 = (runSim th b rows).1
      ∧ (runSimA th b rows).2.map Prod.snd = (runSim th b rows).2 := by
  induction rows with
  | nil => intro b; simp [runSim, runSimA]
  | cons r0 tail ih =>
    intro b
    cases tail with
    | nil => simp [runSim, runSimA]
    | cons r1 rest =>
      rcases hs : backtestStep th b r0.1 r1.2.1 r1.2.2 with ⟨b', ot⟩
      rw [runSim, runSimA]
      dsimp only
      rw [hs]
      dsimp only
      refine ⟨(ih b').1, ?_⟩
      rcases ot with _ | tr <;> simp [(ih b').2]

/-- Every trade of the annotated log satisfies the entry conditions and the
position-cost bound with respect to its annotated budget. -/
lemma runSimA_mem (th : ℚ) (rows : List (ℚ × ℚ × ℚ)) :
    ∀ b p, p ∈ (runSimA th b rows).2 →
      th ≤ p.2.prob ∧ p.2.price_in ≤ p.1 ∧ p.2.qty = ⌊p.1 / p.2.price_in⌋
        ∧ 0 < p.2.qty ∧ (p.2.qty : ℚ) * p.2.price_in ≤ p.1 := by
  induction rows with
  | nil => intro b p hp; simp [runSimA] at hp
  | cons r0 tail ih =>
    intro b p hp
    cases tail with
    | nil => simp [runSimA] at hp
    | cons r1 rest =>
      rcases hs : backtestStep th b r0.1 r1.2.1 r1.2.2 with ⟨b', ot⟩
      rw [runSimA] at hp
      dsimp only at hp
      rw [hs] at hp
      dsimp only at hp
      rcases ot with _ | tr
      · simp only [Option.map_none', Option.toList_none, List.nil_append] at hp
        exact ih b' p hp
      · simp only [Option.map_some', Option.toList_some, List.singleton_append,
          List.mem_cons] at hp
        rcases hp with rfl | hp
        · have htr : (backtestStep th b r0.1 r1.2.1 r1.2.2).2 = some tr := by
            rw [hs]
          exact backtestStep_trade th b r0.1 r1.2.1 r1.2.2 tr htr
        · exact ih b' p hp

/-- C2: for every backtest run, (1) the final budget equals the initial
budget plus the exact sum of per-trade profits; (2) the annotated run is
the same run as the plain one (same final budget and same trade log); and
(3) every executed trade was entered only with `probability ≥ threshold`
and `budget ≥ next-day open`, with quantity
`floor(budget / next-day open)`, positive, and position cost
`quantity * next-day open` at most the budget held at that moment. -/
theorem run_backtest_budget_invariants (threshold initial : ℚ)
    (rows : List (ℚ × ℚ × ℚ)) :
    ((runSim threshold initial rows).1
      = initial + ((runSim threshold initial rows).2.map BTrade.profit).sum)
    ∧ ((runSimA threshold initial rows).1 = (runSim threshold initial rows).1
      ∧ (runSimA threshold initial rows).2.map Prod.snd
          = (runSim threshold initial rows).2)
    ∧ (∀ p ∈ (runSimA threshold initial rows).2,
        threshold ≤ p.2.prob ∧ p.2.price_in ≤ p.1
          ∧ p.2.qty = ⌊p.1 / p.2.price_in⌋ ∧ 0 < p.2.qty
          ∧ (p.2.qty : ℚ) * p.2.price_in ≤ p.1) :=
  ⟨runSim_budget threshold rows initial, runSimA_agrees threshold rows initial,
   fun p hp => runSimA_mem threshold rows initial p hp⟩

/-- Witness for `run_backtest_budget_invariants`: a two-row test set where
one trade executes (probability `9/10 ≥ 1/2`, next open `10 ≤ 100`,
quantity `⌊100/10⌋ = 10`, cost `100 ≤ 100`). -/
theorem run_backtest_budget_invariants_witness :
    (1 : ℚ) / 2 ≤ (9 : ℚ) / 10 ∧ (10 : ℚ) ≤ 100
      ∧ (10 : ℤ) = ⌊(100 : ℚ) / 10⌋ ∧ (0 : ℤ) < 10
      ∧ ((10 : ℤ) : ℚ) * 10 ≤ 100 :=
  (run_backtest_budget_invariants (1/2) 100 [(9/10, 10, 10), (8/10, 10, 11)]).2.2
    (100, ⟨9/10, 10, 11, 10, 10⟩)
    (by norm_num [runSimA, backtestStep])

/-! ## signal_evaluator.py — `evaluate_signals`

An indicator row (a pandas Series) is a finite mapping from column name to
numeric value.  A rule condition is a Python expression string evaluated
over the bindings `latest` and `previous`; its observable outcome is a
boolean (`bool(evaluated_value)`) or an exception (`KeyError` on a missing
column, or any other evaluation error), so a condition is embedded as its
denotation `Row → Row → Except Unit Bool`.  The expression language itself
(the `eval` call and its binding environment) is treated separately below
(`eval_globals_bindings` / `eval_local_bindings`). -/

/-- An indicator row: column name to numeric value. -/
abbrev SRow := List (String × ℚ)

/-- The denotation of one condition expression: given the `latest` and
`previous` rows it yields the boolean interpretation of the evaluated
value, or an error when evaluation raises. -/
abbrev SCond := SRow → SRow → Except Unit Bool

/-- One entry of `signal_rules`: `rule.get('rule_name', '無名ルール')`
(already defaulted), `rule.get('action')` (possibly absent), and
`rule.get('conditions', [])`. -/
structure SRule where
  rule_name : String
  action : Option String
  conditions : List SCond

/-- Lookup of a column in a row (`latest['RSI_14']`, `'RSI_14' in latest`). -/
def sig_rowGet (r : SRow) (k : String) : Option ℚ :=
  (r.find? (fun p => p.1 = k)).map Prod.snd

/-- The inner condition loop: conditions are evaluated left to right; the
loop stops at the first condition that is false or raises (a raise lands in
the `except` handler, which also marks the rule as not firing). -/
def allConds (latest previous : SRow) : List SCond → Bool
  | [] => true
  | c :: cs =>
    match c latest previous with
    | Except.ok b => if b then allConds latest previous cs else false
    | Except.error _ => false

/-- Whether a rule fires: rules with a falsy `action` (absent or empty) or
no conditions are skipped (`if not action or not conditions: continue`);
otherwise the rule fires when every condition evaluates to true. -/
def firesRule (latest previous : SRow) (r : SRule) : Bool :=
  match r.action with
  | none => false
  | some a =>
    if a = "" then false
    else if r.conditions.isEmpty then false
    else allConds latest previous r.conditions

/-- The row `df_with_indicators.iloc[-1]`. -/
def latestOf (rows : List SRow) : SRow := (rows.get? (rows.length - 1)).getD []

/-- The row `df_with_indicators.iloc[-2]`. -/
def previousOf (rows : List SRow) : SRow := (rows.get? (rows.length - 2)).getD []

/-- The indicator values the source copies into `evaluation_details` when a
rule fires (`RSI_14`, `SMA_5`, `SMA_25` when present in the latest row,
rounded to two decimals). -/
def extrasOf (latest : SRow) : List (String × ℚ) :=
  ["RSI_14", "SMA_5", "SMA_25"].filterMap
    (fun k => (sig_rowGet latest k).map (fun v => (k, roundTo2 v)))

/-- The `evaluation_details` dictionary returned with the signal. -/
structure EvalDetails where
  message : String
  rule_applied : Option String
  extras : List (String × ℚ)
deriving DecidableEq, Repr

/-- Embedding of `signal_evaluator.evaluate_signals`: fewer than two rows
returns HOLD with the insufficient-data message; otherwise the first
firing rule (in the caller-supplied order) determines the signal and the
explanation; with no firing rule the result is HOLD, with the
no-rules-configured message when the rule list is empty and the
no-rule-matched message otherwise.  (The source quotes the rule name
inside the match message; the quoting characters are elided here.) -/
def evaluate_signals (rows : List SRow) (rules : List SRule) :
    String × EvalDetails :=
  if rows.length < 2 then
    ("HOLD", ⟨"データ不足のため判定不可", none, []⟩)
  else
    let latest := latestOf rows
    let previous := previousOf rows
    match rules.find? (firesRule latest previous) with
    | some r =>
      (r.action.getD "",
       ⟨"ルール " ++ r.rule_name ++ " に合致しました。", some r.rule_name,
        extrasOf latest⟩)
    | none =>
      if rules.isEmpty then ("HOLD", ⟨"シグナルルール未設定", none, []⟩)
      else ("HOLD", ⟨"合致するシグナルルールなし", none, []⟩)

/-- The condition loop succeeds iff every condition evaluates to `ok true`. -/
lemma allConds_iff (latest previous : SRow) (cs : List SCond) :
    allConds latest previous cs = true
      ↔ ∀ c ∈ cs, c latest previous = Except.ok true := by
  induction cs with
  | nil => simp [allConds]
  | cons c cs ih =>
    rw [allConds]
    rcases hc : c latest previous with e | b
    · simp [hc]
    · rcases b with _ | _
      · simp [hc]
      · simp [hc, ih]

/-- Short-circuiting: once a condition fails (false or raising), the
outcome of the condition loop does not depend on the remaining
conditions. -/
lemma allConds_shortcircuit (latest previous : SRow) (pre : List SCond)
    (c : SCond) (post post' : List SCond)
    (hc : c latest previous ≠ Except.ok true) :
    allConds latest previous (pre ++ c :: post)
      = allConds latest previous (pre ++ c :: post') := by
  induction pre with
  | nil =>
    simp only [List.nil_append]
    rw [allConds, allConds]
    rcases hcc : c latest previous with e | b
    · rfl
    · rcases b with _ | _
      · rfl
      · exact absurd hcc hc
  | cons d pre ih =>
    simp only [List.cons_append]
    rw [allConds, allConds]
    rcases hd : d latest previous with e | b
    · rfl
    · rcases b with _ | _
      · rfl
      · simpa using ih

/-- A rule fires iff it is well-formed (non-falsy action and a non-empty
condition list) and every condition evaluates to true. -/
lemma firesRule_iff (latest previous : SRow) (r : SRule) :
    firesRule latest previous r = true
      ↔ (∃ a, r.action = some a ∧ a ≠ "") ∧ r.conditions ≠ []
        ∧ ∀ c ∈ r.conditions, c latest previous = Except.ok true := by
  unfold firesRule
  rcases r with ⟨n, a, cs⟩
  rcases a with _ | a
  · simp
  · dsimp only
    by_cases ha : a = ""
    · simp [ha]
    · cases cs with
      | nil => simp [ha]
      | cons c0 cs0 => simp [ha, allConds_iff]

/-- C5 counterexample: a rule whose condition list is empty has, vacuously,
all of its conditions holding, yet `evaluate_signals` skips it
(`if not action or not conditions: continue`) and returns HOLD instead of
the rule's BUY action on a two-row table. -/
theorem evaluate_signals_vacuous_rule_counterexample :
    (evaluate_signals [[("Close", 1)], [("Close", 2)]]
        [⟨"空条件ルール", some "BUY", []⟩]).1 = "HOLD"
    ∧ (evaluate_signals [[("Close", 1)], [("Close", 2)]]
        [⟨"空条件ルール", some "BUY", []⟩]).1 ≠ "BUY"
    ∧ (⟨"空条件ルール", some "BUY", []⟩ : SRule).conditions = [] := by
  refine ⟨rfl, ?_, rfl⟩
  intro h
  rw [show (evaluate_signals [[("Close", 1)], [("Close", 2)]]
      [⟨"空条件ルール", some "BUY", []⟩]).1 = "HOLD" from rfl] at h
  simp at h

/-- C5 amended: on a table of at least two rows, rules are tried in the
caller-supplied order and the first firing rule determines the signal and
an explanation naming that rule (first conjunct); when no rule fires the
result is HOLD with the no-rules-configured message for an empty rule list
and the no-rule-matched message otherwise (second conjunct); a rule fires
iff it has a non-falsy action and a non-empty condition list and every
condition evaluates to true — rules with a missing/empty action or an
empty condition list are skipped (third conjunct); and condition
evaluation short-circuits: after the first condition that is false or
raises, the remaining conditions cannot affect the outcome (fourth
conjunct). -/
theorem evaluate_signals_first_match_spec (rows : List SRow)
    (rules : List SRule) (h2 : 2 ≤ rows.length) :
    (∀ r, rules.find? (firesRule (latestOf rows) (previousOf rows)) = some r →
      evaluate_signals rows rules
        = (r.action.getD "",
           ⟨"ルール " ++ r.rule_name ++ " に合致しました。", some r.rule_name,
            extrasOf (latestOf rows)⟩))
    ∧ (rules.find? (firesRule (latestOf rows) (previousOf rows)) = none →
        evaluate_signals rows rules
          = ("HOLD",
             ⟨if rules.isEmpty then "シグナルルール未設定"
               else "合致するシグナルルールなし", none, []⟩))
    ∧ (∀ r : SRule, firesRule (latestOf rows) (previousOf rows) r = true
        ↔ (∃ a, r.action = some a ∧ a ≠ "") ∧ r.conditions ≠ []
          ∧ ∀ c ∈ r.conditions,
              c (latestOf rows) (previousOf rows) = Except.ok true)
    ∧ (∀ (l p : SRow) (pre post post' : List SCond) (c : SCond),
        c l p ≠ Except.ok true →
        allConds l p (pre ++ c :: post) = allConds l p (pre ++ c :: post')) := by
  have hlt : ¬ rows.length < 2 := by omega
  refine ⟨?_, ?_, fun r => firesRule_iff _ _ r,
    fun l p pre post post' c hc => allConds_shortcircuit l p pre c post post' hc⟩
  · intro r hr
    unfold evaluate_signals
    rw [if_neg hlt]
    dsimp only
    rw [hr]
  · intro hr
    unfold evaluate_signals
    rw [if_neg hlt]
    dsimp only
    rw [hr]
    by_cases he : rules.isEmpty
    · simp [he]
    · simp [he]

/-- Witness for `evaluate_signals_first_match_spec`: a two-row table and
two rules; the first rule's condition is false, the second fires, so the
returned signal is the second rule's action and the explanation names it. -/
theorem evaluate_signals_first_match_spec_witness :
    evaluate_signals [[("Close", 1)], [("Close", 2)]]
        [⟨"R1", some "SELL", [fun _ _ => Except.ok false]⟩,
         ⟨"R2", some "BUY", [fun _ _ => Except.ok true]⟩]
      = ("BUY", ⟨"ルール R2 に合致しました。", some "R2", []⟩) :=
  (evaluate_signals_first_match_spec [[("Close", 1)], [("Close", 2)]]
      [⟨"R1", some "SELL", [fun _ _ => Except.ok false]⟩,
       ⟨"R2", some "BUY", [fun _ _ => Except.ok true]⟩]
      (by decide)).1
    ⟨"R2", some "BUY", [fun _ _ => Except.ok true]⟩ rfl

/-- C10: on a table of at least two rows the returned signal is either
"HOLD" or the verbatim `action` string of the first firing rule; the
action is never validated against {BUY, SELL, HOLD}: whatever non-empty
action string the first firing rule carries is returned unchanged. -/
theorem evaluate_signals_action_verbatim (rows : List SRow)
    (rules : List SRule) (h2 : 2 ≤ rows.length) :
    ((evaluate_signals rows rules).1 = "HOLD"
      ∨ ∃ r, rules.find? (firesRule (latestOf rows) (previousOf rows)) = some r
          ∧ (evaluate_signals rows rules).1 = r.action.getD "")
    ∧ (∀ (a : String) (r : SRule),
        rules.find? (firesRule (latestOf rows) (previousOf rows)) = some r →
        r.action = some a → (evaluate_signals rows rules).1 = a) := by
  have hspec := evaluate_signals_first_match_spec rows rules h2
  constructor
  · rcases hfind : rules.find? (firesRule (latestOf rows) (previousOf rows))
        with _ | r
    · left
      rw [hspec.2.1 hfind]
    · right
      exact ⟨r, rfl, by rw [hspec.1 r hfind]⟩
  · intro a r hfind ha
    rw [hspec.1 r hfind, ha]
    rfl

/-- Witness for `evaluate_signals_action_verbatim`: a firing rule carrying
the arbitrary action string "FROBNICATE" is returned verbatim as the
signal. -/
theorem evaluate_signals_action_verbatim_witness :
    (evaluate_signals [[("Close", 1)], [("Close", 2)]]
        [⟨"Rx", some "FROBNICATE", [fun _ _ => Except.ok true]⟩]).1
      = "FROBNICATE" :=
  (evaluate_signals_action_verbatim [[("Close", 1)], [("Close", 2)]]
      [⟨"Rx", some "FROBNICATE", [fun _ _ => Except.ok true]⟩]
      (by decide)).2 "FROBNICATE"
    ⟨"Rx", some "FROBNICATE", [fun _ _ => Except.ok true]⟩ rfl rfl

/-- The globals dictionary the source passes to `eval`:
`{"__builtins__": {}}` — built-ins are emptied. -/
def eval_globals_bindings : List String := ["__builtins__"]

/-- The locals dictionary the source passes to `eval`:
`{'latest': latest, 'previous': previous, 'pd': pd}` — the two row
bindings PLUS the whole pandas module object. -/
def eval_local_bindings : List String := ["latest", "previous", "pd"]

/-- C7 (supporting fact for the code bug): the evaluation environment of a
condition expression is not restricted to the two row bindings — the
source also binds the pandas module under the name `pd`.  Through module
attribute traversal (for example `pd.io.common.os`) an expression reaches
the `os` module, and through dunder traversal from any literal it reaches
arbitrary builtins, so stripping `__builtins__` does not sandbox the
expression. -/
theorem eval_bindings_exceed_rows :
    "pd" ∈ eval_local_bindings
    ∧ eval_local_bindings ≠ ["latest", "previous"]
    ∧ eval_globals_bindings = ["__builtins__"] := by
  refine ⟨?_, ?_, rfl⟩
  · simp [eval_local_bindings]
  · intro h
    simp [eval_local_bindings] at h

/-! ## trade_tracker.py — `TradeTracker`

The ledger is a CSV file: every call of `log_signal` /
`_evaluate_past_trades` re-reads it with `pd.read_csv` and `log_signal`
appends rows with `csv.writer`.  An entry is embedded as its written CSV
row, with the numeric fields typed (they are only written, never compared
as strings by the claims).  What matters for the claims is `read_csv`'s
column dtype inference: a column whose every value is an unsigned-integer
literal (the shape stock codes such as `7203` take) is parsed as int64,
and comparing an int64 column against a Python `str` is elementwise
`False`; a column with any non-numeric value stays `object` and compares
as strings.  `isIntLiteral` / `colIsNumeric` / `cellEqStr` model exactly
this (the integer case is the one the ledger's `signal_date` and
`stock_code` columns can exercise). -/

/-- One data row of `trade_log.csv`, as written. -/
structure TTEntry where
  signal_date : String
  stock_code : String
  stock_name : String
  prob : ℚ
  threshold : ℚ
  future_days : ℕ
  status : String
  buy_price : ℤ
  sell_price : ℤ
  profit : ℤ
  profit_rate : ℚ
deriving DecidableEq, Repr

/-- Whether `read_csv` parses this written value as an integer: a
non-empty run of digits. -/
def isIntLiteral (s : String) : Bool := !s.data.isEmpty && s.data.all Char.isDigit

/-- Whether `read_csv` gives a string column of the ledger a numeric dtype:
it does iff every value in the column parses as a number. -/
def colIsNumeric (ledger : List TTEntry) (f : TTEntry → String) : Bool :=
  ledger.all (fun e => isIntLiteral (f e))

/-- Elementwise `column == query` where `query` is a Python `str`: on a
numeric column the comparison is `False` for every element; on an object
column it is string equality. -/
def cellEqStr (numeric : Bool) (stored query : String) : Bool :=
  if numeric then false else stored == query

/-- Embedding of `TradeTracker.log_signal`: re-read the ledger; unless a
row with the same `(signal_date, stock_code)` key exists (as compared by
pandas after dtype inference), append a fresh PENDING row. -/
def log_signal (ledger : List TTEntry) (date_str code name : String)
    (prob threshold : ℚ) (future_days : ℕ) : List TTEntry :=
  let dateNumeric := colIsNumeric ledger (fun e => e.signal_date)
  let codeNumeric := colIsNumeric ledger (fun e => e.stock_code)
  let dup := ledger.any (fun e =>
    cellEqStr dateNumeric e.signal_date date_str
      && cellEqStr codeNumeric e.stock_code code)
  if dup then ledger
  else ledger ++ [⟨date_str, code, name, prob, threshold, future_days,
    "PENDING", 0, 0, 0, 0⟩]

/-- The per-entry body of the reconciliation loop, for an entry already
known to be PENDING and code-matched.  The price history `hist` is the
date-indexed daily frame: `(date, open, close)` per row.  The entry is
returned unchanged when the signal date is absent, when the horizon row
`sig_loc + future_days` is out of range, or when the computation raises
(index error on `sig_loc + 1`, division by a zero buy price) — the
source's bare `except: continue` skips the row in those cases. -/
def evalPending (budget : ℚ) (hist : List (String × ℚ × ℚ)) (e : TTEntry) :
    TTEntry :=
  match hist.findIdx? (fun h => h.1 == e.signal_date) with
  | none => e
  | some loc =>
    if loc + e.future_days < hist.length then
      match hist.get? (loc + 1), hist.get? (loc + e.future_days) with
      | some hb, some hs =>
        let buy_price := hb.2.1
        let sell_price := hs.2.2
        if buy_price = 0 then e
        else
          let lots0 := ratTrunc (budget / buy_price)
          let lots : ℤ := if lots0 < 1 then 1 else lots0
          let profit := (sell_price - buy_price) * (lots : ℚ)
          let profit_rate := profit / (buy_price * (lots : ℚ)) * 100
          { e with
            buy_price := ratTrunc buy_price
            sell_price := ratTrunc sell_price
            profit := ratTrunc profit
            profit_rate := roundTo2 profit_rate
            status := "DONE" }
      | _, _ => e
    else e

/-- One ledger row of the reconciliation pass: rows outside
`targets = df_log[(df_log['stock_code'] == stock_code) &
(df_log['status'] == 'PENDING')]` are untouched. -/
def evalTrackerEntry (budget : ℚ) (stock_code : String) (codeNumeric : Bool)
    (hist : List (String × ℚ × ℚ)) (e : TTEntry) : TTEntry :=
  if cellEqStr codeNumeric e.stock_code stock_code && (e.status == "PENDING")
  then evalPending budget hist e
  else e

/-- Embedding of `TradeTracker._evaluate_past_trades` (the reconciliation
pass; the source's public entry point `get_daily_report` calls it with
`str(stock_code)`, so the query is always a Python string). -/
def evaluate_past_trades (budget : ℚ) (stock_code : String)
    (hist : List (String × ℚ × ℚ)) (ledger : List TTEntry) : List TTEntry :=
  let codeNumeric := colIsNumeric ledger (fun e => e.stock_code)
  ledger.map (evalTrackerEntry budget stock_code codeNumeric hist)

/-- Reconciliation never touches the key fields: the entry's `stock_code`
(and `signal_date`) survive `evalPending` unchanged. -/
lemma evalPending_key_fields (budget : ℚ) (hist : List (String × ℚ × ℚ))
    (e : TTEntry) :
    (evalPending budget hist e).stock_code = e.stock_code
      ∧ (evalPending budget hist e).signal_date = e.signal_date := by
  unfold evalPending
  cases hist.findIdx? (fun h => h.1 == e.signal_date) with
  | none => exact ⟨rfl, rfl⟩
  | some loc =>
    dsimp only
    split_ifs with hlt
    · rcases hist.get? (loc + 1) with _ | hb
        <;> rcases hist.get? (loc + e.future_days) with _ | hs
        <;> dsimp only
        <;> first
          | exact ⟨rfl, rfl⟩
          | (split_ifs with hz <;> exact ⟨rfl, rfl⟩)
    · exact ⟨rfl, rfl⟩

/-- The reconciliation body either leaves the entry untouched or marks it
DONE. -/
lemma evalPending_cases (budget : ℚ) (hist : List (String × ℚ × ℚ))
    (e : TTEntry) :
    evalPending budget hist e = e
      ∨ (evalPending budget hist e).status = "DONE" := by
  unfold evalPending
  cases hist.findIdx? (fun h => h.1 == e.signal_date) with
  | none => left; rfl
  | some loc =>
    dsimp only
    split_ifs with hlt
    · rcases hist.get? (loc + 1) with _ | hb
        <;> rcases hist.get? (loc + e.future_days) with _ | hs
        <;> dsimp only
        <;> first
          | (left; rfl)
          | (split_ifs with hz <;> first | (left; rfl) | (right; rfl))
    · left; rfl

/-- Rows outside the `targets` filter — in particular every DONE row — are
untouched by a reconciliation pass. -/
lemma evalTrackerEntry_done (budget : ℚ) (code : String) (numeric : Bool)
    (hist : List (String × ℚ × ℚ)) (e : TTEntry) (h : e.status = "DONE") :
    evalTrackerEntry budget code numeric hist e = e := by
  unfold evalTrackerEntry
  rw [h]
  simp

/-- One row of a reconciliation pass is idempotent: a row it completed is
DONE and hence outside the next pass's `targets` filter, and a row it
skipped is skipped again. -/
lemma evalTrackerEntry_idem (budget : ℚ) (code : String) (numeric : Bool)
    (hist : List (String × ℚ × ℚ)) (e : TTEntry) :
    evalTrackerEntry budget code numeric hist
      (evalTrackerEntry budget code numeric hist e)
      = evalTrackerEntry budget code numeric hist e := by
  by_cases hg : (cellEqStr numeric e.stock_code code
      && (e.status == "PENDING")) = true
  · have h1 : evalTrackerEntry budget code numeric hist e
        = evalPending budget hist e := by
      unfold evalTrackerEntry
      rw [if_pos hg]
    rcases evalPending_cases budget hist e with hsame | hdone
    · rw [h1, hsame]
      exact h1.trans hsame
    · have hst : (evalTrackerEntry budget code numeric hist e).status
          = "DONE" := by
        rw [h1]
        exact hdone
      exact evalTrackerEntry_done budget code numeric hist _ hst
  · have h1 : evalTrackerEntry budget code numeric hist e = e := by
      unfold evalTrackerEntry
      rw [if_neg hg]
    rw [h1]
    exact h1

/-- A reconciliation pass, re-reading the written-back ledger, sees the
same dtype inference: stock codes are never modified by the pass. -/
lemma evaluate_past_trades_colNumeric (budget : ℚ) (code : String)
    (hist : List (String × ℚ × ℚ)) (ledger : List TTEntry) (numeric : Bool) :
    colIsNumeric (ledger.map (evalTrackerEntry budget code numeric hist))
        (fun e => e.stock_code)
      = colIsNumeric ledger (fun e => e.stock_code) := by
  have hkey : ∀ e : TTEntry,
      (evalTrackerEntry budget code numeric hist e).stock_code
        = e.stock_code := by
    intro e
    unfold evalTrackerEntry
    split_ifs
    · exact (evalPending_key_fields budget hist e).1
    · rfl
  unfold colIsNumeric
  rw [List.all_map]
  congr 1
  funext e
  simp [Function.comp, hkey e]

/-- C3: with the ledger's stock codes all numeric literals — the shape
Japanese stock codes such as 7203 take — a reconciliation pass is a global
no-op, because `read_csv` parses the `stock_code` column as int64 and the
filter `df_log['stock_code'] == stock_code` compares it against a Python
string, which is elementwise false; in particular a PENDING entry whose
signal date and full horizon exist in the history never transitions to
DONE (first conjunct).  The remaining parts of the claim do hold:
reconciliation is idempotent — a second pass changes nothing (second
conjunct) — and DONE entries are never modified by any pass (third
conjunct). -/
theorem evaluate_past_trades_reconciliation (budget : ℚ) (code : String)
    (hist : List (String × ℚ × ℚ)) (ledger : List TTEntry) :
    (colIsNumeric ledger (fun e => e.stock_code) = true →
      evaluate_past_trades budget code hist ledger = ledger)
    ∧ evaluate_past_trades budget code hist
        (evaluate_past_trades budget code hist ledger)
        = evaluate_past_trades budget code hist ledger
    ∧ (∀ (numeric : Bool) (e : TTEntry), e.status = "DONE" →
        evalTrackerEntry budget code numeric hist e = e) := by
  refine ⟨?_, ?_, fun numeric e h =>
    evalTrackerEntry_done budget code numeric hist e h⟩
  · intro h
    unfold evaluate_past_trades
    dsimp only
    rw [h]
    have hid : ∀ e ∈ ledger, evalTrackerEntry budget code true hist e = e := by
      intro e _
      unfold evalTrackerEntry cellEqStr
      simp
    calc ledger.map (evalTrackerEntry budget code true hist)
        = ledger.map id := List.map_congr_left hid
      _ = ledger := List.map_id ledger
  · unfold evaluate_past_trades
    dsimp only
    rw [evaluate_past_trades_colNumeric]
    rw [List.map_map]
    apply List.map_congr_left
    intro e _
    exact evalTrackerEntry_idem budget code
      (colIsNumeric ledger fun e => e.stock_code) hist e

/-- Witness for `evaluate_past_trades_reconciliation`: a ledger holding
the single PENDING entry for signal date 2024-01-02 on stock code 7203
with horizon 3, reconciled against a history that contains the signal
date and the full horizon, stays PENDING and entirely unchanged. -/
theorem evaluate_past_trades_reconciliation_witness :
    evaluate_past_trades 1000 "7203"
        [("2024-01-02", 50, 50), ("2024-01-03", 100, 90),
         ("2024-01-06", 95, 99), ("2024-01-09", 105, 140)]
        [⟨"2024-01-02", "7203", "トヨタ", 8/10, 7/10, 3, "PENDING", 0, 0, 0, 0⟩]
      = [⟨"2024-01-02", "7203", "トヨタ", 8/10, 7/10, 3, "PENDING", 0, 0, 0, 0⟩] :=
  (evaluate_past_trades_reconciliation 1000 "7203"
      [("2024-01-02", 50, 50), ("2024-01-03", 100, 90),
       ("2024-01-06", 95, 99), ("2024-01-09", 105, 140)]
      [⟨"2024-01-02", "7203", "トヨタ", 8/10, 7/10, 3, "PENDING", 0, 0, 0, 0⟩]).1
    (by decide)

/-- With the ledger's stored stock codes all numeric literals, the
duplicate check of `log_signal` can never fire: `read_csv` parses the
`stock_code` column as int64 and `df['stock_code'] == str(code)` is
elementwise false, so a fresh PENDING row is appended unconditionally. -/
lemma log_signal_numeric_append (ledger : List TTEntry)
    (date code name : String) (prob threshold : ℚ) (fd : ℕ)
    (h : colIsNumeric ledger (fun e => e.stock_code) = true) :
    log_signal ledger date code name prob threshold fd
      = ledger ++ [⟨date, code, name, prob, threshold, fd,
          "PENDING", 0, 0, 0, 0⟩] := by
  unfold log_signal
  dsimp only
  rw [h]
  have hdup : (ledger.any fun e =>
      cellEqStr (colIsNumeric ledger fun e => e.signal_date)
          e.signal_date date
        && cellEqStr true e.stock_code code) = false := by
    rw [List.any_eq_false]
    intro e _
    simp [cellEqStr]
  rw [hdup]
  rfl

/-- C4: calling `log_signal` twice with the identical
`(signal_date, stock_code)` key appends TWO rows whenever the stock code
is a numeric literal (the normal case for Japanese stock codes such as
7203): the duplicate check compares the int64-parsed stored column against
a Python string and never matches, so the second call is not suppressed
and both PENDING rows are persisted. -/
theorem log_signal_duplicate_for_numeric_code (date code name : String)
    (prob threshold : ℚ) (fd : ℕ) (hcode : isIntLiteral code = true) :
    log_signal (log_signal [] date code name prob threshold fd)
        date code name prob threshold fd
      = [⟨date, code, name, prob, threshold, fd, "PENDING", 0, 0, 0, 0⟩,
         ⟨date, code, name, prob, threshold, fd, "PENDING", 0, 0, 0, 0⟩] := by
  have h1 : log_signal [] date code name prob threshold fd
      = [⟨date, code, name, prob, threshold, fd, "PENDING", 0, 0, 0, 0⟩] :=
    log_signal_numeric_append [] date code name prob threshold fd rfl
  rw [h1]
  rw [log_signal_numeric_append _ date code name prob threshold fd
    (by simp [colIsNumeric, hcode])]
  rfl

/-- Witness for `log_signal_duplicate_for_numeric_code`: the spec's own
scenario — `record_signal("2024-01-02", "7203", 0.8, 0.7, 3)` called
twice — persists two identical PENDING rows instead of one. -/
theorem log_signal_duplicate_for_numeric_code_witness :
    log_signal (log_signal [] "2024-01-02" "7203" "トヨタ" (8/10) (7/10) 3)
        "2024-01-02" "7203" "トヨタ" (8/10) (7/10) 3
      = [⟨"2024-01-02", "7203", "トヨタ", 8/10, 7/10, 3, "PENDING", 0, 0, 0, 0⟩,
         ⟨"2024-01-02", "7203", "トヨタ", 8/10, 7/10, 3, "PENDING", 0, 0, 0, 0⟩] :=
  log_signal_duplicate_for_numeric_code "2024-01-02" "7203" "トヨタ"
    (8/10) (7/10) 3 (by decide)
